import Mathlib

/-!
Verification of the jgrep path-matching and relative-resolution engine
(`src/main.rs` of the rich implementation).  JSON trees, the key/value
traversers, the path normalizer and the relative resolver are embedded as
executable Lean functions; the external regex crate is kept abstract as a
compilation function producing a string matcher.  String splitting and the
other text primitives the Rust code uses are implemented here directly on
character lists so that every definition evaluates inside the kernel.
-/

namespace JGrep

/-! ## Text primitives (character-list implementations of the Rust string
operations used by the engine; delimiters are nonempty in every
configuration the CLI accepts, and the split of an empty pattern is the
degenerate singleton, as in the Lean core convention). -/

/-- One splitting pass: scan the character list, cutting at each leftmost,
non-overlapping occurrence of the separator, exactly like the Rust
`str::split` iterator for a nonempty separator.  The fuel starts at the
length of the scanned list, which bounds the number of scan steps. -/
def strSplitGo (sep : List Char) : Nat → List Char → List Char → List (List Char)
  | _, [], cur => [cur.reverse]
  | 0, s, cur => [cur.reverse ++ s]
  | fuel + 1, s, cur =>
    if sep.isPrefixOf s then cur.reverse :: strSplitGo sep fuel (s.drop sep.length) []
    else
      match s with
      | c :: rest => strSplitGo sep fuel rest (c :: cur)
      | [] => [cur.reverse]

/-- Rust `str::split` collected to a list (`"a::b".split("::") = ["a","b"]`,
`"a::".split("::") = ["a",""]`). -/
def strSplitOn (s d : String) : List String :=
  if d.data.isEmpty then [s]
  else (strSplitGo d.data s.data.length s.data []).map (fun l => ⟨l⟩)

/-- ASCII lowering of one character, the fragment of the case folding the
regex crate performs under the global `(?i)` flag that the inputs in this
development exercise. -/
def lowerChar (c : Char) : Char :=
  if 'A' ≤ c ∧ c ≤ 'Z' then Char.ofNat (c.toNat + 32) else c

/-- ASCII lowering of a string. -/
def strToLower (s : String) : String := ⟨s.data.map lowerChar⟩

/-- Repeatedly remove the suffix occurrences of a nonempty pattern, as Rust
`str::trim_end_matches`; the fuel is the length of the scanned list. -/
def trimEndGo (dl : List Char) : Nat → List Char → List Char
  | 0, s => s
  | fuel + 1, s =>
    if !dl.isEmpty && dl.isSuffixOf s then trimEndGo dl fuel (s.take (s.length - dl.length))
    else s

/-- Rust `str::trim_end_matches` on strings. -/
def trimEndMatches (s d : String) : String := ⟨trimEndGo d.data s.data.length s.data⟩

/-- Digit accumulation for `usize::from_str`: every character must be an
ASCII digit. -/
def digitsToNat : List Char → Nat → Option Nat
  | [], acc => some acc
  | c :: rest, acc =>
    if '0' ≤ c ∧ c ≤ '9' then digitsToNat rest (acc * 10 + (c.toNat - '0'.toNat)) else none

/-- Rust `usize::from_str`: optional leading plus sign, then one or more
ASCII digits.  Values too large for the machine word fail in Rust; here they
parse and then fail the subsequent array bounds check, with the same overall
outcome for the resolver. -/
def parseUsize (s : String) : Option Nat :=
  match s.data with
  | [] => none
  | '+' :: rest => if rest.isEmpty then none else digitsToNat rest 0
  | l => digitsToNat l 0

/-! ## Data model -/

/-- The parsed JSON tree handed to the core (`serde_json::Value`): an
ordered field list for objects, an ordered element list for arrays, and the
scalar leaves.  Numbers carry the integer values used by this development;
number formatting beyond that plays no role in any claim. -/
inductive Value where
  | obj : List (String × Value) → Value
  | arr : List Value → Value
  | str : String → Value
  | num : Int → Value
  | bool : Bool → Value
  | null : Value

/-- A compiled pattern: the pattern string the regex object reports back
(`Regex::to_string`) together with its matcher (`Regex::is_match`).  The
matcher itself is the external regex engine and stays abstract. -/
structure Pattern where
  str : String
  isMatch : String → Bool

/-- A search result: delimiter-joined key path plus a snapshot of the value
(`struct Match` in `main.rs`). -/
structure Match where
  key : String
  value : Value

/-! ## Path builder -/

/-- `parse_key`: split a key string on the delimiter. -/
def parseKey (keyStr d : String) : List String := strSplitOn keyStr d

/-- `normalize_key`: split on the delimiter, drop empty segments, rejoin. -/
def normalizeKey (key d : String) : String :=
  String.intercalate d ((strSplitOn key d).filter (fun s => s != ""))

/-- Candidate path for a child segment: the bare segment at the root,
otherwise parent path, delimiter, segment (`format!("{}{}{}", ...)`). -/
def mkCand (pre d seg : String) : String :=
  if pre = "" then seg else pre ++ d ++ seg

/-- The `clean_pattern` computation of `search_keys`: strip a leading caret,
then a trailing dollar from the remainder; if either strip fails, keep the
whole pattern string. -/
def stripAnchors (s : String) : String :=
  match s.data with
  | '^' :: rest =>
    if rest.getLast? = some '$' then ⟨rest.dropLast⟩ else s
  | _ => s

/-! ## Traverser: key search -/

/-- Object-field test of `search_keys`: the compiled pattern matches the
whole candidate path, or the bare field name equals the anchor-stripped
pattern string. -/
def fieldCond (p : Pattern) (cur k : String) : Bool :=
  p.isMatch cur || (k == stripAnchors p.str)

/-- Matches contributed by one object field, one per satisfied pattern, in
pattern order. -/
def keyMatchesObjField (pats : List Pattern) (d cur k : String) (v : Value) : List Match :=
  pats.filterMap (fun p => if fieldCond p cur k then some ⟨normalizeKey cur d, v⟩ else none)

/-- Matches contributed by one array element: only the whole-path test, with
no bare-segment fallback (the array arm of `search_keys`). -/
def keyMatchesArrElem (pats : List Pattern) (d cur : String) (v : Value) : List Match :=
  pats.filterMap (fun p => if p.isMatch cur then some ⟨normalizeKey cur d, v⟩ else none)

mutual
/-- `search_keys`: depth-first key search; at each object field or array
element the candidate path is tested, and recursion always continues into
the child. -/
def searchKeys : Value → List Pattern → String → String → List Match
  | .obj fields, pats, d, pre => searchKeysObj fields pats d pre
  | .arr elems, pats, d, pre => searchKeysArr elems pats d pre 0
  | _, _, _, _ => []

/-- The object loop of `search_keys`, in field order. -/
def searchKeysObj : List (String × Value) → List Pattern → String → String → List Match
  | [], _, _, _ => []
  | (k, v) :: rest, pats, d, pre =>
    keyMatchesObjField pats d (mkCand pre d k) k v
      ++ searchKeys v pats d (mkCand pre d k)
      ++ searchKeysObj rest pats d pre

/-- The array loop of `search_keys`, enumerating from the given index. -/
def searchKeysArr : List Value → List Pattern → String → String → Nat → List Match
  | [], _, _, _, _ => []
  | v :: rest, pats, d, pre, i =>
    keyMatchesArrElem pats d (mkCand pre d (toString i)) v
      ++ searchKeys v pats d (mkCand pre d (toString i))
      ++ searchKeysArr rest pats d pre (i + 1)
end

/-! ## Traverser: value search -/

/-- Matches contributed by one scalar leaf of `search_values`: the leaf text
is tested, and the emitted key is the prefix with trailing delimiters
trimmed and then normalized. -/
def valueMatchesLeaf (pats : List Pattern) (d pre : String) (v : Value) (s : String) : List Match :=
  pats.filterMap
    (fun p => if p.isMatch s then some ⟨normalizeKey (trimEndMatches pre d) d, v⟩ else none)

mutual
/-- `search_values`: depth-first value search; strings, numbers and booleans
are tested at the leaves, containers and null never are. -/
def searchValues : Value → List Pattern → String → String → List Match
  | .obj fields, pats, d, pre => searchValuesObj fields pats d pre
  | .arr elems, pats, d, pre => searchValuesArr elems pats d pre 0
  | .str s, pats, d, pre => valueMatchesLeaf pats d pre (.str s) s
  | .num n, pats, d, pre => valueMatchesLeaf pats d pre (.num n) (toString n)
  | .bool b, pats, d, pre => valueMatchesLeaf pats d pre (.bool b) (toString b)
  | .null, _, _, _ => []

/-- The object loop of `search_values`. -/
def searchValuesObj : List (String × Value) → List Pattern → String → String → List Match
  | [], _, _, _ => []
  | (k, v) :: rest, pats, d, pre =>
    searchValues v pats d (mkCand pre d k) ++ searchValuesObj rest pats d pre

/-- The array loop of `search_values`. -/
def searchValuesArr : List Value → List Pattern → String → String → Nat → List Match
  | [], _, _, _, _ => []
  | v :: rest, pats, d, pre, i =>
    searchValues v pats d (mkCand pre d (toString i)) ++ searchValuesArr rest pats d pre (i + 1)
end

/-! ## Relative resolver -/

/-- First-occurrence field lookup in an object (`serde_json::Map::get`;
keys are unique in a parsed document). -/
def lookupField : List (String × Value) → String → Option Value
  | [], _ => none
  | (k, v) :: rest, part => if k = part then some v else lookupField rest part

/-- `resolve_path`: walk the segment list from the root; object steps look
the segment up as a field, array steps parse it as an index and bounds-check
it; any failure aborts with no result.  On success the accumulated resolved
path is returned alongside the reached node. -/
def resolvePath (data : Value) : List String → Option (Value × List String)
  | [] => some (data, [])
  | part :: rest =>
    match data with
    | .obj fields =>
      match lookupField fields part with
      | some v => (resolvePath v rest).map (fun p => (p.1, part :: p.2))
      | none => none
    | .arr elems =>
      match parseUsize part with
      | some idx =>
        match elems.get? idx with
        | some v => (resolvePath v rest).map (fun p => (p.1, part :: p.2))
        | none => none
      | none => none
    | _ => none

/-- One step of the relative walk: a chunk equal to the relative delimiter
pops the last segment (a no-op on an empty list, as `VecDeque::pop_back`
returns `None`), any other chunk is pushed. -/
def relStep (rd : String) (q : List String) (part : String) : List String :=
  if part = rd then q.dropLast else q ++ [part]

/-- `apply_relative_path`: seed the segment list with the split of the found
key, then fold the chunks of the relative expression through the pop/push
step. -/
def applyRelativePath (key relKey d rd : String) : List String :=
  (parseKey relKey d).foldl (relStep rd) (parseKey key d)

/-- Resolution of one (match, relative expression) pair: recompute the path
and validate it against the tree, yielding the re-joined resolved path and
the resolved value. -/
def resolveOne (data : Value) (d rd : String) (m : Match) (rk : String) : Option Match :=
  (resolvePath data (applyRelativePath m.key rk d rd)).map
    (fun vp => ⟨String.intercalate d vp.2, vp.1⟩)

/-- Inner accumulation of `apply_relative_keys`: push the resolved match if
the pair resolves, otherwise keep the accumulator. -/
def relInner (data : Value) (d rd : String) (m : Match) (acc : List Match) (rk : String) :
    List Match :=
  match resolvePath data (applyRelativePath m.key rk d rd) with
  | some vp => acc ++ [⟨String.intercalate d vp.2, vp.1⟩]
  | none => acc

/-- `apply_relative_keys`: for every match and every relative expression, in
that nesting order, accumulate the successfully resolved pairs. -/
def applyRelativeKeys (data : Value) (ms : List Match) (relKeys : List String) (d rd : String) :
    List Match :=
  ms.foldl (fun acc m => relKeys.foldl (relInner data d rd m) acc) []

/-! ## Pattern compiler and the engine pipeline -/

/-- Decoration of a full pattern before compilation:
`(?i)^pat$` when case-insensitive, `^pat$` otherwise. -/
def decorFull (ic : Bool) (p : String) : String :=
  if ic then "(?i)^" ++ p ++ "$" else "^" ++ p ++ "$"

/-- Decoration of an extended pattern before compilation: only the optional
`(?i)` flag is added. -/
def decorExt (ic : Bool) (p : String) : String :=
  if ic then "(?i)" ++ p else p

/-- Compile a list of decorated pattern strings with the external engine,
stopping at the first failure, as the chain of `?` operators does. -/
def compilePats (C : String → Option (String → Bool)) : List String → Option (List Pattern)
  | [] => some []
  | s :: rest =>
    match C s with
    | none => none
    | some f => (compilePats C rest).map (fun ps => ⟨s, f⟩ :: ps)

/-- Observable phases of one `process_json` run, recorded in execution
order. -/
inductive Event where
  | keySearch
  | valueSearch
  | relResolve
deriving DecidableEq

/-- Final stage of `process_json`: when relative expressions are present the
accumulated matches are replaced wholesale by the resolver output. -/
def relPhase (data : Value) (relativeKeys : List String) (d rd : String)
    (acc : List Event × List Match) : List Event × Except Unit (List Match) :=
  if relativeKeys = [] then (acc.1, Except.ok acc.2)
  else (acc.1 ++ [Event.relResolve],
        Except.ok (applyRelativeKeys data acc.2 relativeKeys d rd))

/-- Value stage of `process_json`: compile the value patterns (aborting the
run on failure) and append the value-search matches. -/
def valuePhase (C : String → Option (String → Bool)) (data : Value)
    (values extendedValues : List String) (d : String)
    (relativeKeys : List String) (rd : String) (ic : Bool)
    (acc : List Event × List Match) : List Event × Except Unit (List Match) :=
  if values = [] ∧ extendedValues = [] then relPhase data relativeKeys d rd acc
  else
    match compilePats C (values.map (decorFull ic) ++ extendedValues.map (decorExt ic)) with
    | none => (acc.1, Except.error ())
    | some vpats =>
      relPhase data relativeKeys d rd
        (acc.1 ++ [Event.valueSearch], acc.2 ++ searchValues data vpats d "")

/-- `process_json` over an already-loaded tree, instrumented with the list
of traversal phases that actually ran: key patterns are compiled and
searched first, then value patterns, then the relative stage; a compilation
failure aborts with an error and no match list. -/
def processJsonT (C : String → Option (String → Bool)) (data : Value)
    (keys values extendedKeys extendedValues : List String) (d : String)
    (relativeKeys : List String) (rd : String) (ic : Bool) :
    List Event × Except Unit (List Match) :=
  if keys = [] ∧ extendedKeys = [] then
    valuePhase C data values extendedValues d relativeKeys rd ic ([], [])
  else
    match compilePats C (keys.map (decorFull ic) ++ extendedKeys.map (decorExt ic)) with
    | none => ([], Except.error ())
    | some kpats =>
      valuePhase C data values extendedValues d relativeKeys rd ic
        ([Event.keySearch], searchKeys data kpats d "")

/-- The observable result of `process_json`: either a configuration error or
the final match list. -/
def processJson (C : String → Option (String → Bool)) (data : Value)
    (keys values extendedKeys extendedValues : List String) (d : String)
    (relativeKeys : List String) (rd : String) (ic : Bool) :
    Except Unit (List Match) :=
  (processJsonT C data keys values extendedKeys extendedValues d relativeKeys rd ic).2

/-! ## Flattened view of the key traversal

The recursive key search visits object fields and array elements in
depth-first order; `keyVisits` lists those visit points with their candidate
paths, which lets per-visit matching rules be stated and compared. -/

/-- One visit point of the key traversal: candidate path, bare segment
(field name or stringified index), whether it is an array element, and the
visited subtree. -/
structure Visit where
  cand : String
  seg : String
  isElem : Bool
  val : Value

mutual
/-- Depth-first list of the visit points of `search_keys`. -/
def keyVisits : Value → String → String → List Visit
  | .obj fields, d, pre => keyVisitsObj fields d pre
  | .arr elems, d, pre => keyVisitsArr elems d pre 0
  | _, _, _ => []

/-- Visit points below a list of object fields. -/
def keyVisitsObj : List (String × Value) → String → String → List Visit
  | [], _, _ => []
  | (k, v) :: rest, d, pre =>
    ⟨mkCand pre d k, k, false, v⟩ :: (keyVisits v d (mkCand pre d k) ++ keyVisitsObj rest d pre)

/-- Visit points below a list of array elements, enumerating from the given
index. -/
def keyVisitsArr : List Value → String → String → Nat → List Visit
  | [], _, _, _ => []
  | v :: rest, d, pre, i =>
    ⟨mkCand pre d (toString i), toString i, true, v⟩ ::
      (keyVisits v d (mkCand pre d (toString i)) ++ keyVisitsArr rest d pre (i + 1))
end

/-- The per-visit emission rule of `search_keys`: the compiled pattern
matches the whole candidate path, or - at object fields only - the bare
segment equals the anchor-stripped pattern string. -/
def visitCond (p : Pattern) (t : Visit) : Bool :=
  p.isMatch t.cand || (!t.isElem && (t.seg == stripAnchors p.str))

/-- Matches emitted at one visit point, one per satisfied pattern. -/
def emitFor (pats : List Pattern) (d : String) (t : Visit) : List Match :=
  pats.filterMap (fun p => if visitCond p t then some ⟨normalizeKey t.cand d, t.val⟩ else none)

/-- Key search as claim C4 reads it: the object-field rule - whole-path
match or bare-segment fallback - applied uniformly at array elements too,
with the stringified index as the segment.  This follows the claim's words
and is compared against `searchKeys`. -/
def searchKeysSpecC4 (data : Value) (pats : List Pattern) (d pre : String) : List Match :=
  (keyVisits data d pre).flatMap (fun t =>
    pats.filterMap (fun p =>
      if p.isMatch t.cand || (t.seg == stripAnchors p.str) then
        some ⟨normalizeKey t.cand d, t.val⟩
      else none))

/-! ## Token view of the relative expression -/

/-- A resolver token: pop the last segment, or push a literal one. -/
inductive RTok where
  | pop
  | lit : String → RTok
deriving DecidableEq

/-- The tokens `apply_relative_path` actually processes: the chunks of the
expression split on the primary delimiter, each compared whole against the
relative delimiter. -/
def codeTokens (rel d rd : String) : List RTok :=
  (parseKey rel d).map (fun c => if c = rd then RTok.pop else RTok.lit c)

/-- Token list of one chunk as claim C3 reads it: the chunk is split further
at every occurrence of the relative delimiter, each occurrence becomes a pop
token, and empty literals are discarded.  This follows the claim's words and
is compared against `codeTokens`. -/
def chunkTokensSpec (rd chunk : String) : List RTok :=
  match strSplitOn chunk rd with
  | [] => []
  | p :: ps =>
    (if p = "" then [] else [RTok.lit p])
      ++ ps.flatMap (fun q => RTok.pop :: (if q = "" then [] else [RTok.lit q]))

/-- Tokenization of a whole relative expression as claim C3 reads it. -/
def relTokensSpec (rel d rd : String) : List RTok :=
  (parseKey rel d).flatMap (chunkTokensSpec rd)

/-- Run a token list over a segment list with the pop/push semantics. -/
def applyRTokens (ts : List RTok) (q : List String) : List String :=
  ts.foldl
    (fun acc t =>
      match t with
      | RTok.pop => acc.dropLast
      | RTok.lit s => acc ++ [s]) q

/-! ## Concrete instances used by the closed theorems -/

/-- Sample engine standing in for the external regex crate in closed
statements: a decorated pattern containing a parenthesis fails to compile
(as the lone `(` of the concrete counterexample does in the real crate), and
any other decorated literal compiles to whole-string comparison with its
anchor-stripped text, which is the real crate's behaviour on the anchored
literal patterns these statements use. -/
def demoCompile (s : String) : Option (String → Bool) :=
  if s.data.contains '(' then none else some (fun t => t == stripAnchors s)

/-- The spec's example document restricted to the address subtree:
`{"address": {"street": "123 Main St"}}`. -/
def addressDoc : Value :=
  .obj [("address", .obj [("street", .str "123 Main St")])]

/-- A document with the street field at the root: `{"street": "1 Ave"}`. -/
def rootStreetDoc : Value :=
  .obj [("street", .str "1 Ave")]

/-- The compiled form of full key pattern `STREET` under the global
case-insensitive flag: pattern string `(?i)^STREET$`, matching any string
whose ASCII lowering is `street`. -/
def streetCI : Pattern :=
  ⟨"(?i)^STREET$", fun s => strToLower s == "street"⟩

/-- The compiled form of full key pattern `STREET` with the flag unset:
pattern string `^STREET$`, matching exactly `STREET`. -/
def streetCS : Pattern :=
  ⟨"^STREET$", fun s => s == "STREET"⟩

/-- A document holding an array below an object field: `{"a": [null]}`. -/
def arrDoc : Value :=
  .obj [("a", .arr [.null])]

/-- The compiled form of full key pattern `0` (case-sensitive): pattern
string `^0$`, matching exactly `0`. -/
def zeroPat : Pattern :=
  ⟨"^0$", fun s => s == "0"⟩

/-- A document whose only field name contains the path delimiter:
`{"a::b": 1}`. -/
def dupKeyDoc : Value :=
  .obj [("a::b", .num 1)]

/-- The compiled form of full key pattern `a::b` (case-sensitive). -/
def abPat : Pattern :=
  ⟨"^a::b$", fun s => s == "a::b"⟩

/-! ## Helper lemmas -/

mutual
/-- Key search is the concatenation, over the depth-first visit list, of the
per-visit emissions. -/
theorem searchKeys_visits : ∀ (data : Value) (pats : List Pattern) (d pre : String),
    searchKeys data pats d pre = (keyVisits data d pre).flatMap (emitFor pats d)
  | .obj fields, pats, d, pre => searchKeysObj_visits fields pats d pre
  | .arr elems, pats, d, pre => searchKeysArr_visits elems pats d pre 0
  | .str _, _, _, _ => rfl
  | .num _, _, _, _ => rfl
  | .bool _, _, _, _ => rfl
  | .null, _, _, _ => rfl

/-- Object-list case of `searchKeys_visits`. -/
theorem searchKeysObj_visits :
    ∀ (fields : List (String × Value)) (pats : List Pattern) (d pre : String),
      searchKeysObj fields pats d pre = (keyVisitsObj fields d pre).flatMap (emitFor pats d)
  | [], _, _, _ => rfl
  | (k, v) :: rest, pats, d, pre => by
    have ih1 := searchKeys_visits v pats d (mkCand pre d k)
    have ih2 := searchKeysObj_visits rest pats d pre
    simp only [searchKeysObj, keyVisitsObj, List.flatMap_cons, List.flatMap_append, ih1, ih2,
      List.append_assoc]
    rfl

/-- Array-list case of `searchKeys_visits`. -/
theorem searchKeysArr_visits :
    ∀ (elems : List Value) (pats : List Pattern) (d pre : String) (i : Nat),
      searchKeysArr elems pats d pre i = (keyVisitsArr elems d pre i).flatMap (emitFor pats d)
  | [], _, _, _, _ => rfl
  | v :: rest, pats, d, pre, i => by
    have ih1 := searchKeys_visits v pats d (mkCand pre d (toString i))
    have ih2 := searchKeysArr_visits rest pats d pre (i + 1)
    simp only [searchKeysArr, keyVisitsArr, List.flatMap_cons, List.flatMap_append, ih1, ih2,
      List.append_assoc, emitFor, visitCond, keyMatchesArrElem, Bool.not_true, Bool.false_and,
      Bool.or_false]
end

mutual
/-- Key search with no patterns yields nothing. -/
theorem searchKeys_nil : ∀ (data : Value) (d pre : String), searchKeys data [] d pre = []
  | .obj fields, d, pre => searchKeysObj_nil fields d pre
  | .arr elems, d, pre => searchKeysArr_nil elems d pre 0
  | .str _, _, _ => rfl
  | .num _, _, _ => rfl
  | .bool _, _, _ => rfl
  | .null, _, _ => rfl

/-- Object-list case of `searchKeys_nil`. -/
theorem searchKeysObj_nil :
    ∀ (fields : List (String × Value)) (d pre : String), searchKeysObj fields [] d pre = []
  | [], _, _ => rfl
  | (k, v) :: rest, d, pre => by
    simp only [searchKeysObj, keyMatchesObjField, List.filterMap_nil,
      searchKeys_nil v d (mkCand pre d k), searchKeysObj_nil rest d pre, List.append_nil,
      List.nil_append]

/-- Array-list case of `searchKeys_nil`. -/
theorem searchKeysArr_nil :
    ∀ (elems : List Value) (d pre : String) (i : Nat), searchKeysArr elems [] d pre i = []
  | [], _, _, _ => rfl
  | v :: rest, d, pre, i => by
    simp only [searchKeysArr, keyMatchesArrElem, List.filterMap_nil,
      searchKeys_nil v d (mkCand pre d (toString i)), searchKeysArr_nil rest d pre (i + 1),
      List.append_nil, List.nil_append]
end

mutual
/-- Value search with no patterns yields nothing. -/
theorem searchValues_nil : ∀ (data : Value) (d pre : String), searchValues data [] d pre = []
  | .obj fields, d, pre => searchValuesObj_nil fields d pre
  | .arr elems, d, pre => searchValuesArr_nil elems d pre 0
  | .str _, _, _ => rfl
  | .num _, _, _ => rfl
  | .bool _, _, _ => rfl
  | .null, _, _ => rfl

/-- Object-list case of `searchValues_nil`. -/
theorem searchValuesObj_nil :
    ∀ (fields : List (String × Value)) (d pre : String), searchValuesObj fields [] d pre = []
  | [], _, _ => rfl
  | (k, v) :: rest, d, pre => by
    simp only [searchValuesObj, searchValues_nil v d (mkCand pre d k),
      searchValuesObj_nil rest d pre, List.append_nil]

/-- Array-list case of `searchValues_nil`. -/
theorem searchValuesArr_nil :
    ∀ (elems : List Value) (d pre : String) (i : Nat), searchValuesArr elems [] d pre i = []
  | [], _, _, _ => rfl
  | v :: rest, d, pre, i => by
    simp only [searchValuesArr, searchValues_nil v d (mkCand pre d (toString i)),
      searchValuesArr_nil rest d pre (i + 1), List.append_nil]
end

/-- The inner fold of `apply_relative_keys` appends exactly the resolved
pairs of one match. -/
theorem relInner_foldl (data : Value) (d rd : String) (m : Match) :
    ∀ (rks : List String) (acc : List Match),
      rks.foldl (relInner data d rd m) acc = acc ++ rks.filterMap (resolveOne data d rd m) := by
  intro rks
  induction rks with
  | nil => intro acc; simp
  | cons rk rest ih =>
    intro acc
    simp only [List.foldl_cons, List.filterMap_cons, ih]
    cases h : resolvePath data (applyRelativePath m.key rk d rd) with
    | none => simp [relInner, resolveOne, h]
    | some vp => simp [relInner, resolveOne, h]

/-- `apply_relative_keys` is the flattening, over all matches, of the
per-match resolved pairs. -/
theorem applyRelativeKeys_eq (data : Value) (ms : List Match) (rks : List String)
    (d rd : String) :
    applyRelativeKeys data ms rks d rd =
      ms.flatMap (fun m => rks.filterMap (resolveOne data d rd m)) := by
  have general : ∀ (l : List Match) (acc : List Match),
      l.foldl (fun acc m => rks.foldl (relInner data d rd m) acc) acc =
        acc ++ l.flatMap (fun m => rks.filterMap (resolveOne data d rd m)) := by
    intro l
    induction l with
    | nil => intro acc; simp
    | cons m rest ih =>
      intro acc
      rw [List.foldl_cons, relInner_foldl data d rd m rks acc, ih, List.flatMap_cons,
        List.append_assoc]
  simpa using general ms []

/-- Folding the pop step enough times over any segment list empties it:
each step drops the last segment, and dropping from an empty list is the
identity. -/
theorem foldl_relStep_replicate (rd : String) :
    ∀ (n : Nat) (q : List String), q.length ≤ n →
      List.foldl (relStep rd) q (List.replicate n rd) = [] := by
  intro n
  induction n with
  | zero =>
    intro q hq
    rw [Nat.le_zero, List.length_eq_zero] at hq
    simp [hq]
  | succ n ih =>
    intro q hq
    rw [List.replicate_succ, List.foldl_cons]
    have hstep : relStep rd q rd = q.dropLast := by simp [relStep]
    rw [hstep]
    exact ih q.dropLast (by simpa [List.length_dropLast] using Nat.sub_le_of_le_add hq)

/-- Relative stage with expressions present: the resolver output replaces
the accumulated matches. -/
theorem relPhase_go (data : Value) (rk : List String) (d rd : String)
    (acc : List Event × List Match) (hrel : rk ≠ []) :
    relPhase data rk d rd acc =
      (acc.1 ++ [Event.relResolve], Except.ok (applyRelativeKeys data acc.2 rk d rd)) := by
  unfold relPhase
  rw [if_neg hrel]

/-- Relative stage with no expressions: the accumulated matches pass
through. -/
theorem relPhase_skip (data : Value) (d rd : String) (acc : List Event × List Match) :
    relPhase data [] d rd acc = (acc.1, Except.ok acc.2) := by
  unfold relPhase
  rw [if_pos rfl]

/-- Value stage when some value pattern is supplied and all compile. -/
theorem valuePhase_compiled (C : String → Option (String → Bool)) (data : Value)
    (values extendedValues : List String) (d : String) (rk : List String) (rd : String)
    (ic : Bool) (vpats : List Pattern) (acc : List Event × List Match)
    (hv : compilePats C (values.map (decorFull ic) ++ extendedValues.map (decorExt ic)) =
      some vpats)
    (hne : ¬(values = [] ∧ extendedValues = [])) :
    valuePhase C data values extendedValues d rk rd ic acc =
      relPhase data rk d rd (acc.1 ++ [Event.valueSearch],
        acc.2 ++ searchValues data vpats d "") := by
  unfold valuePhase
  rw [if_neg hne, hv]

/-- Value stage when no value pattern is supplied. -/
theorem valuePhase_skip (C : String → Option (String → Bool)) (data : Value)
    (values extendedValues : List String) (d : String) (rk : List String) (rd : String)
    (ic : Bool) (acc : List Event × List Match) (h : values = [] ∧ extendedValues = []) :
    valuePhase C data values extendedValues d rk rd ic acc = relPhase data rk d rd acc := by
  unfold valuePhase
  rw [if_pos h]

/-- Value stage when a supplied value pattern fails to compile: the run
aborts, keeping only the events already recorded. -/
theorem valuePhase_fail (C : String → Option (String → Bool)) (data : Value)
    (values extendedValues : List String) (d : String) (rk : List String) (rd : String)
    (ic : Bool) (acc : List Event × List Match)
    (hv : compilePats C (values.map (decorFull ic) ++ extendedValues.map (decorExt ic)) = none)
    (hne : ¬(values = [] ∧ extendedValues = [])) :
    valuePhase C data values extendedValues d rk rd ic acc = (acc.1, Except.error ()) := by
  unfold valuePhase
  rw [if_neg hne, hv]

/-- Key stage when some key pattern is supplied and all compile: the key
search runs and its event is recorded. -/
theorem processJsonT_keys (C : String → Option (String → Bool)) (data : Value)
    (keys values extendedKeys extendedValues : List String) (d : String) (rk : List String)
    (rd : String) (ic : Bool) (kpats : List Pattern)
    (hne : ¬(keys = [] ∧ extendedKeys = []))
    (hk : compilePats C (keys.map (decorFull ic) ++ extendedKeys.map (decorExt ic)) =
      some kpats) :
    processJsonT C data keys values extendedKeys extendedValues d rk rd ic =
      valuePhase C data values extendedValues d rk rd ic
        ([Event.keySearch], searchKeys data kpats d "") := by
  unfold processJsonT
  rw [if_neg hne, hk]

/-- Key stage when no key pattern is supplied. -/
theorem processJsonT_skipKeys (C : String → Option (String → Bool)) (data : Value)
    (keys values extendedKeys extendedValues : List String) (d : String) (rk : List String)
    (rd : String) (ic : Bool) (h : keys = [] ∧ extendedKeys = []) :
    processJsonT C data keys values extendedKeys extendedValues d rk rd ic =
      valuePhase C data values extendedValues d rk rd ic ([], []) := by
  unfold processJsonT
  rw [if_pos h]

/-- Key stage when a supplied key pattern fails to compile: the run aborts
before any traversal. -/
theorem processJsonT_keysFail (C : String → Option (String → Bool)) (data : Value)
    (keys values extendedKeys extendedValues : List String) (d : String) (rk : List String)
    (rd : String) (ic : Bool)
    (hne : ¬(keys = [] ∧ extendedKeys = []))
    (hk : compilePats C (keys.map (decorFull ic) ++ extendedKeys.map (decorExt ic)) = none) :
    processJsonT C data keys values extendedKeys extendedValues d rk rd ic =
      ([], Except.error ()) := by
  unfold processJsonT
  rw [if_neg hne, hk]

/-- An empty compilation list yields the empty pattern list. -/
theorem compilePats_nil_inv (C : String → Option (String → Bool)) (kpats : List Pattern)
    (h : compilePats C [] = some kpats) : kpats = [] := by
  simp only [compilePats] at h
  exact (Option.some.inj h).symm

/-- The array loop of the key search, written over the enumerated element
list. -/
theorem searchKeysArr_range (pats : List Pattern) (d pre : String) :
    ∀ (elems : List Value) (i : Nat),
      searchKeysArr elems pats d pre i =
        ((List.range' i elems.length).zip elems).flatMap (fun iv =>
          keyMatchesArrElem pats d (mkCand pre d (toString iv.1)) iv.2
            ++ searchKeys iv.2 pats d (mkCand pre d (toString iv.1)))
  | [], _ => rfl
  | v :: rest, i => by
    rw [show searchKeysArr (v :: rest) pats d pre i =
        keyMatchesArrElem pats d (mkCand pre d (toString i)) v
          ++ searchKeys v pats d (mkCand pre d (toString i))
          ++ searchKeysArr rest pats d pre (i + 1) from rfl,
      searchKeysArr_range pats d pre rest (i + 1)]
    simp [List.range'_succ, List.append_assoc]

/-! ## Claims -/

/-- Claim C1 (code bug, evaluated at the failing input): with the global
case-insensitive flag set, full key pattern `STREET` compiles to
`(?i)^STREET$`; on the spec's address document the nested field `street`
yields no Match - the anchored matcher fails against the whole path
`address::street` and the bare-name fallback compares `street` against the
unstripped string `(?i)^STREET$`, because the caret strip fails on the
`(?i)` prefix the compiler itself added.  At the root the same pattern does
match, and with the flag unset `STREET` matches nowhere, as the claim
states. -/
theorem ignore_case_street_evaluation :
    searchKeys addressDoc [streetCI] "::" "" = [] ∧
    searchKeys rootStreetDoc [streetCI] "::" "" = [⟨"street", Value.str "1 Ave"⟩] ∧
    searchKeys addressDoc [streetCS] "::" "" = [] :=
  ⟨rfl, rfl, rfl⟩

/-- Claim C2 (confirmed): over the depth-first visit list, an object field
(marked `isElem = false`) produces one Match per pattern exactly when the
compiled anchored pattern matches the whole candidate path or the bare field
name equals the anchor-stripped pattern string; array elements use only the
whole-path test, which the claim leaves untouched. -/
theorem full_key_pattern_rule (data : Value) (pats : List Pattern) (d pre : String) :
    searchKeys data pats d pre =
      (keyVisits data d pre).flatMap (fun t =>
        pats.filterMap (fun p =>
          if p.isMatch t.cand || (!t.isElem && (t.seg == stripAnchors p.str)) then
            some ⟨normalizeKey t.cand d, t.val⟩
          else none)) :=
  searchKeys_visits data pats d pre

/-- Claim C3 counterexample: on the relative expression `..S` the resolver
processes the single literal token `..S`, whereas the claim's tokenization -
splitting each chunk further at each occurrence of the relative delimiter -
yields a pop token followed by the literal `S`. -/
theorem relative_tokens_counterexample :
    codeTokens "..S" "::" ".." ≠ relTokensSpec "..S" "::" ".." ∧
    codeTokens "..S" "::" ".." = [RTok.lit "..S"] ∧
    relTokensSpec "..S" "::" ".." = [RTok.pop, RTok.lit "S"] :=
  ⟨by decide, rfl, rfl⟩

/-- Claim C3 amended: the token sequence the resolver processes is exactly
the chunk list of the expression split on the primary delimiter; a chunk
equal to the relative delimiter is a pop and any other chunk - including one
such as `..S` that merely contains the relative delimiter - is pushed whole
as one literal token; chunks are not split further and empty chunks are not
discarded. -/
theorem relative_tokens_whole_chunks (key rel d rd : String) :
    applyRelativePath key rel d rd = applyRTokens (codeTokens rel d rd) (parseKey key d) := by
  unfold applyRelativePath applyRTokens codeTokens
  rw [List.foldl_map]
  apply List.foldl_ext
  intro acc c _
  by_cases h : c = rd <;> simp [relStep, h]

/-- Claim C4 counterexample: for the document `{"a": [null]}` and full key
pattern `0`, the claimed rule (the object-field fallback applied at array
elements too) produces the Match at `a::0`, but the key search produces
nothing: the array arm tests only the anchored whole-path match. -/
theorem array_fallback_counterexample :
    searchKeys arrDoc [zeroPat] "::" "" = [] ∧
    searchKeysSpecC4 arrDoc [zeroPat] "::" "" = [⟨"a::0", Value.null⟩] :=
  ⟨rfl, rfl⟩

/-- Claim C4 amended: at array elements the key search applies only the
anchored whole-path test to the candidate path built from the stringified
index; the bare-segment fallback of object fields does not apply to array
indices. -/
theorem array_elements_anchored_only (elems : List Value) (pats : List Pattern) (d pre : String) :
    searchKeys (Value.arr elems) pats d pre =
      ((List.range elems.length).zip elems).flatMap (fun iv =>
        pats.filterMap (fun p =>
          if p.isMatch (mkCand pre d (toString iv.1)) then
            some ⟨normalizeKey (mkCand pre d (toString iv.1)) d, iv.2⟩
          else none)
        ++ searchKeys iv.2 pats d (mkCand pre d (toString iv.1))) := by
  rw [show searchKeys (Value.arr elems) pats d pre = searchKeysArr elems pats d pre 0 from rfl,
    searchKeysArr_range pats d pre elems 0, List.range_eq_range']
  rfl

/-- Claim C5 (confirmed): when at least one relative expression is supplied
and all patterns compile, the engine's output is exactly the flattening,
over the traversal matches in order, of the resolved pairs - one Match per
(original match, relative expression) pair whose recomputed path resolves,
nothing for the pairs that fail, and none of the original matches. -/
theorem relative_keys_replace_matches (C : String → Option (String → Bool)) (data : Value)
    (keys values extendedKeys extendedValues : List String) (d : String)
    (relativeKeys : List String) (rd : String) (ic : Bool) (kpats vpats : List Pattern)
    (hk : compilePats C (keys.map (decorFull ic) ++ extendedKeys.map (decorExt ic)) = some kpats)
    (hv : compilePats C (values.map (decorFull ic) ++ extendedValues.map (decorExt ic)) =
      some vpats)
    (hrel : relativeKeys ≠ []) :
    processJson C data keys values extendedKeys extendedValues d relativeKeys rd ic =
      Except.ok ((searchKeys data kpats d "" ++ searchValues data vpats d "").flatMap (fun m =>
        relativeKeys.filterMap (fun rk =>
          (resolvePath data (applyRelativePath m.key rk d rd)).map (fun vp =>
            (⟨String.intercalate d vp.2, vp.1⟩ : Match))))) := by
  unfold processJson
  have hrw : ∀ ms : List Match,
      List.foldl (fun acc m => List.foldl (relInner data d rd m) acc relativeKeys) [] ms =
        ms.flatMap (fun m =>
          relativeKeys.filterMap (fun rk =>
            (resolvePath data (applyRelativePath m.key rk d rd)).map (fun vp =>
              (⟨String.intercalate d vp.2, vp.1⟩ : Match)))) := by
    intro ms
    exact applyRelativeKeys_eq data ms relativeKeys d rd
  by_cases h1 : keys = [] ∧ extendedKeys = []
  · obtain ⟨hk1, hk2⟩ := h1
    subst hk1; subst hk2
    have hkp : kpats = [] := compilePats_nil_inv C kpats (by simpa using hk)
    subst hkp
    rw [processJsonT_skipKeys C data [] values [] extendedValues d relativeKeys rd ic ⟨rfl, rfl⟩]
    by_cases h2 : values = [] ∧ extendedValues = []
    · obtain ⟨hv1, hv2⟩ := h2
      subst hv1; subst hv2
      have hvp : vpats = [] := compilePats_nil_inv C vpats (by simpa using hv)
      subst hvp
      rw [valuePhase_skip C data [] [] d relativeKeys rd ic ([], []) ⟨rfl, rfl⟩,
        relPhase_go data relativeKeys d rd ([], []) hrel]
      simp [searchKeys_nil, searchValues_nil, applyRelativeKeys, hrw]
    · rw [valuePhase_compiled C data values extendedValues d relativeKeys rd ic vpats ([], [])
        hv h2, relPhase_go data relativeKeys d rd _ hrel]
      simp [searchKeys_nil, applyRelativeKeys, hrw]
  · rw [processJsonT_keys C data keys values extendedKeys extendedValues d relativeKeys rd ic
      kpats h1 hk]
    by_cases h2 : values = [] ∧ extendedValues = []
    · obtain ⟨hv1, hv2⟩ := h2
      subst hv1; subst hv2
      have hvp : vpats = [] := compilePats_nil_inv C vpats (by simpa using hv)
      subst hvp
      rw [valuePhase_skip C data [] [] d relativeKeys rd ic _ ⟨rfl, rfl⟩,
        relPhase_go data relativeKeys d rd _ hrel]
      simp [searchValues_nil, applyRelativeKeys, hrw]
    · rw [valuePhase_compiled C data values extendedValues d relativeKeys rd ic vpats _ hv h2,
        relPhase_go data relativeKeys d rd _ hrel]
      simp [applyRelativeKeys, hrw]

/-- Claim C5 witness: searching `{"a": {"b": 1, "c": 2}}` for full key
`a::b` with relative expression `..::c` replaces the original match by the
sibling `a::c`. -/
theorem relative_keys_replace_matches_witness :
    processJson demoCompile (Value.obj [("a", Value.obj [("b", Value.num 1), ("c", Value.num 2)])])
      ["a::b"] [] [] [] "::" ["..::c"] ".." false = Except.ok [⟨"a::c", Value.num 2⟩] :=
  (relative_keys_replace_matches demoCompile
    (Value.obj [("a", Value.obj [("b", Value.num 1), ("c", Value.num 2)])])
    ["a::b"] [] [] [] "::" ["..::c"] ".." false
    [⟨"^a::b$", fun t => t == stripAnchors "^a::b$"⟩] [] rfl rfl (by decide)).trans rfl

/-- Claim C6 counterexample: with the valid key pattern `a` and the invalid
value pattern `(` the run does abort with an error and no output, but only
after the key traversal has run - the recorded keySearch event shows a
traversal preceding the compilation failure, against the claim that the
abort happens before any traversal. -/
theorem compile_after_traversal_counterexample :
    processJsonT demoCompile (Value.obj [("a", Value.null)]) ["a"] ["("] [] [] "::" [] ".."
      false = ([Event.keySearch], Except.error ()) := rfl

/-- Claim C6 amended: an invalid pattern always aborts the run with an
error, producing no matches and no output; an invalid key pattern is
detected before any traversal, while an invalid value pattern is detected
only after the key traversal (when key patterns were supplied) has already
run - still with no output. -/
theorem invalid_pattern_aborts (C : String → Option (String → Bool)) (data : Value)
    (keys values extendedKeys extendedValues : List String) (d : String) (rk : List String)
    (rd : String) (ic : Bool) :
    (¬(keys = [] ∧ extendedKeys = []) →
      compilePats C (keys.map (decorFull ic) ++ extendedKeys.map (decorExt ic)) = none →
      processJsonT C data keys values extendedKeys extendedValues d rk rd ic =
        ([], Except.error ())) ∧
    (∀ kpats : List Pattern,
      compilePats C (keys.map (decorFull ic) ++ extendedKeys.map (decorExt ic)) = some kpats →
      ¬(values = [] ∧ extendedValues = []) →
      compilePats C (values.map (decorFull ic) ++ extendedValues.map (decorExt ic)) = none →
      processJsonT C data keys values extendedKeys extendedValues d rk rd ic =
        ((if keys = [] ∧ extendedKeys = [] then [] else [Event.keySearch]),
          Except.error ())) := by
  constructor
  · intro hne hk
    exact processJsonT_keysFail C data keys values extendedKeys extendedValues d rk rd ic hne hk
  · intro kpats hk hvne hv
    by_cases h1 : keys = [] ∧ extendedKeys = []
    · rw [processJsonT_skipKeys C data keys values extendedKeys extendedValues d rk rd ic h1,
        valuePhase_fail C data values extendedValues d rk rd ic ([], []) hv hvne, if_pos h1]
    · rw [processJsonT_keys C data keys values extendedKeys extendedValues d rk rd ic kpats
        h1 hk,
        valuePhase_fail C data values extendedValues d rk rd ic _ hv hvne, if_neg h1]

/-- Claim C6 amended, witness: an invalid key pattern aborts with an empty
trace; a valid key pattern followed by an invalid value pattern aborts after
the key traversal. -/
theorem invalid_pattern_aborts_witness :
    processJsonT demoCompile (Value.obj [("a", Value.null)]) ["("] [] [] [] "::" [] ".."
      false = ([], Except.error ()) ∧
    processJsonT demoCompile (Value.obj [("b", Value.null)]) ["b"] ["("] [] [] "::" [] ".."
      false = ([Event.keySearch], Except.error ()) := by
  constructor
  · exact (invalid_pattern_aborts demoCompile (Value.obj [("a", Value.null)])
      ["("] [] [] [] "::" [] ".." false).1 (by decide) rfl
  · exact ((invalid_pattern_aborts demoCompile (Value.obj [("b", Value.null)])
      ["b"] ["("] [] [] "::" [] ".." false).2
      [⟨"^b$", fun t => t == stripAnchors "^b$"⟩] rfl (by decide) rfl).trans rfl

/-- Claim C7 counterexample: the claim quantifies over every traversal
match, but for the document `{"a::b": 1}`, whose field name contains the
delimiter, the traversal match with key `a::b` re-splits to the segments
`a`, `b`; pushing `S` and popping it leaves those segments, which fail to
resolve, so the pair yields no Match at all. -/
theorem roundtrip_counterexample :
    searchKeys dupKeyDoc [abPat] "::" "" = [⟨"a::b", Value.num 1⟩] ∧
    applyRelativeKeys dupKeyDoc [⟨"a::b", Value.num 1⟩] ["S::.."] "::" ".." = [] :=
  ⟨rfl, rfl⟩

/-- Claim C7 amended: the push-then-pop round trip holds for a match whose
key, split on the delimiter, resolves in the tree back to the match's value
(as traversal matches do when field names are nonempty and delimiter-free):
resolving with an expression that tokenizes to a literal push of `S`
followed by a pop returns exactly the original match. -/
theorem push_pop_roundtrip (data : Value) (m : Match) (S rel d rd : String)
    (htok : parseKey rel d = [S, rd]) (hS : S ≠ rd)
    (hres : resolvePath data (parseKey m.key d) = some (m.value, parseKey m.key d))
    (hjoin : String.intercalate d (parseKey m.key d) = m.key) :
    applyRelativeKeys data [m] [rel] d rd = [m] := by
  have hpath : applyRelativePath m.key rel d rd = parseKey m.key d := by
    unfold applyRelativePath
    rw [htok]
    simp [relStep, hS, List.dropLast_concat]
  rw [applyRelativeKeys_eq]
  simp [resolveOne, hpath, hres, hjoin]

/-- Claim C7 amended, witness: on `{"a": {"b": 1, "c": 2}}` the traversal
match at `a::b` round-trips through the expression `S::..`. -/
theorem push_pop_roundtrip_witness :
    applyRelativeKeys (Value.obj [("a", Value.obj [("b", Value.num 1), ("c", Value.num 2)])])
      [⟨"a::b", Value.num 1⟩] ["S::.."] "::" ".." = [⟨"a::b", Value.num 1⟩] :=
  push_pop_roundtrip (Value.obj [("a", Value.obj [("b", Value.num 1), ("c", Value.num 2)])])
    ⟨"a::b", Value.num 1⟩ "S" "S::.." "::" ".." rfl (by decide) rfl rfl

/-- Claim C8 (confirmed): the pop step on an empty segment list is a no-op,
and a relative expression tokenizing to at least as many pops as the path
has segments still completes, ending on the empty segment list - the walk
itself can never fail. -/
theorem pop_past_root_noop (key rel d rd : String) (n : Nat)
    (htok : parseKey rel d = List.replicate n rd)
    (hlen : (parseKey key d).length ≤ n) :
    relStep rd [] rd = [] ∧ applyRelativePath key rel d rd = [] := by
  refine ⟨by simp [relStep], ?_⟩
  unfold applyRelativePath
  rw [htok]
  exact foldl_relStep_replicate rd n (parseKey key d) hlen

/-- Claim C8 witness: path `a::b` of depth two against three pops. -/
theorem pop_past_root_noop_witness :
    relStep ".." [] ".." = [] ∧ applyRelativePath "a::b" "..::..::.." "::" ".." = [] :=
  pop_past_root_noop "a::b" "..::..::.." "::" ".." 3 rfl (by decide)

/-- Claim C9 (confirmed): with no relative expressions and all patterns
compiling, the emitted sequence is every key-search match in traversal
order followed by every value-search match in traversal order - the two
groups are concatenated, never interleaved by tree position. -/
theorem key_matches_before_value_matches (C : String → Option (String → Bool)) (data : Value)
    (keys values extendedKeys extendedValues : List String) (d : String) (rd : String)
    (ic : Bool) (kpats vpats : List Pattern)
    (hk : compilePats C (keys.map (decorFull ic) ++ extendedKeys.map (decorExt ic)) = some kpats)
    (hv : compilePats C (values.map (decorFull ic) ++ extendedValues.map (decorExt ic)) =
      some vpats) :
    processJson C data keys values extendedKeys extendedValues d [] rd ic =
      Except.ok (searchKeys data kpats d "" ++ searchValues data vpats d "") := by
  unfold processJson
  by_cases h1 : keys = [] ∧ extendedKeys = []
  · obtain ⟨hk1, hk2⟩ := h1
    subst hk1; subst hk2
    have hkp : kpats = [] := compilePats_nil_inv C kpats (by simpa using hk)
    subst hkp
    rw [processJsonT_skipKeys C data [] values [] extendedValues d [] rd ic ⟨rfl, rfl⟩]
    by_cases h2 : values = [] ∧ extendedValues = []
    · obtain ⟨hv1, hv2⟩ := h2
      subst hv1; subst hv2
      have hvp : vpats = [] := compilePats_nil_inv C vpats (by simpa using hv)
      subst hvp
      rw [valuePhase_skip C data [] [] d [] rd ic ([], []) ⟨rfl, rfl⟩, relPhase_skip]
      simp [searchKeys_nil, searchValues_nil]
    · rw [valuePhase_compiled C data values extendedValues d [] rd ic vpats ([], []) hv h2,
        relPhase_skip]
      simp [searchKeys_nil]
  · rw [processJsonT_keys C data keys values extendedKeys extendedValues d [] rd ic kpats h1 hk]
    by_cases h2 : values = [] ∧ extendedValues = []
    · obtain ⟨hv1, hv2⟩ := h2
      subst hv1; subst hv2
      have hvp : vpats = [] := compilePats_nil_inv C vpats (by simpa using hv)
      subst hvp
      rw [valuePhase_skip C data [] [] d [] rd ic _ ⟨rfl, rfl⟩, relPhase_skip]
      simp [searchValues_nil]
    · rw [valuePhase_compiled C data values extendedValues d [] rd ic vpats _ hv h2,
        relPhase_skip]

/-- Claim C9 witness: key match on `name` precedes the value match on `25`
in the output. -/
theorem key_matches_before_value_matches_witness :
    processJson demoCompile (Value.obj [("name", Value.str "Jane"), ("age", Value.str "25")])
      ["name"] ["25"] [] [] "::" [] ".." false =
      Except.ok [⟨"name", Value.str "Jane"⟩, ⟨"age", Value.str "25"⟩] :=
  (key_matches_before_value_matches demoCompile
    (Value.obj [("name", Value.str "Jane"), ("age", Value.str "25")])
    ["name"] ["25"] [] [] "::" ".." false
    [⟨"^name$", fun t => t == stripAnchors "^name$"⟩]
    [⟨"^25$", fun t => t == stripAnchors "^25$"⟩] rfl rfl).trans rfl

/-- Claim C10 (confirmed): whenever the pop/push walk of a relative
expression empties the match's segment list, the pair resolves trivially at
the root and emits a Match whose path is the empty string and whose value is
the whole document. -/
theorem pop_all_resolves_root (data : Value) (m : Match) (rel d rd : String)
    (hempty : applyRelativePath m.key rel d rd = []) :
    applyRelativeKeys data [m] [rel] d rd = [⟨"", data⟩] := by
  rw [applyRelativeKeys_eq]
  simp [resolveOne, hempty, resolvePath, String.intercalate]

/-- Claim C10 witness: popping the single segment of the match at `a`
yields the whole document under the empty path. -/
theorem pop_all_resolves_root_witness :
    applyRelativeKeys (Value.obj [("a", Value.null)]) [⟨"a", Value.null⟩] [".."] "::" ".." =
      [⟨"", Value.obj [("a", Value.null)]⟩] :=
  pop_all_resolves_root (Value.obj [("a", Value.null)]) ⟨"a", Value.null⟩ ".." "::" ".." rfl

end JGrep
